import Mathlib

/-!
Shallow embedding of the CHIP-8 emulator core (src/scripts/renderer.js):
the Renderer display surface (`setPixel`, `clear`) and the CPU
fetch-decode-execute engine (`executeInstruction`, `cycle`, `updateTimers`).

Modelling conventions:
* JS numbers holding byte values are `Nat`; `Uint8Array` writes truncate with
  `% 256` (ECMAScript ToUint8 on a non-negative integer).
* `this.pc` is an `Option Nat`: `none` models the JavaScript value
  `undefined` that `this.pc = this.stack.pop()` produces on an empty stack
  (and which stays non-numeric under `pc += 2`).
* The call stack is a list with its top at the head (`push` conses,
  `pop` takes the head; JS pushes/pops at the array's end).
* The renderer's `display` array is a total function `Int → Nat`: JS arrays
  accept any integer property, holes read back as `undefined`, and
  `undefined ^ 1 = 1`, so an initial all-zero function is faithful.
* `Math.random()` is an oracle parameter `u : ℚ` with `0 ≤ u < 1`;
  the code computes `Math.floor(u * 0xFF)`.
* The keyboard collaborator is an oracle `keys : Nat → Bool`
  (`isKeyPressed`); the `Fx0A` one-shot callback registration is recorded
  in the `keyWait` field (the closure captures the register index).
* The only `throw` in the source is the outer switch's default branch; it is
  modelled with `Except ExecErr`.
-/

namespace Chip8

/-- Wrap of the x coordinate from `Renderer.setPixel`:
`if (x > this.cols) x -= this.cols; else if (x < 0) x += this.cols;`
with `cols = 64`.  The comparison is a strict `>`, so `x = 64` is left
unwrapped. -/
def wrapX (x : Int) : Int :=
  if x > 64 then x - 64 else if x < 0 then x + 64 else x

/-- Wrap of the y coordinate from `Renderer.setPixel` with `rows = 32`;
again a strict `>`, so `y = 32` is left unwrapped. -/
def wrapY (y : Int) : Int :=
  if y > 32 then y - 32 else if y < 0 then y + 32 else y

/-- The display index `let pixelLoc = x + (y * this.cols)` computed by
`Renderer.setPixel` after wrapping. -/
def wrapLoc (x y : Int) : Int :=
  wrapX x + wrapY y * 64

/-- `Renderer.setPixel(x, y)`: wraps the coordinates, XOR-toggles
`display[pixelLoc]` and returns `!this.display[pixelLoc]`, i.e. true iff
the pixel is now off. -/
def setPixel (d : Int → Nat) (x y : Int) : (Int → Nat) × Bool :=
  let pixelLoc := wrapLoc x y
  let nv := d pixelLoc ^^^ 1
  (fun q => if q = pixelLoc then nv else d q, nv == 0)

/-- `Renderer.clear()`: a fresh display array (all pixels off). -/
def rendererClear : Int → Nat := fun _ => 0

/-- The machine state of the `CPU` class, together with the display array
owned by its `Renderer` collaborator. -/
structure CPU where
  memory : Nat → Nat
  v : Nat → Nat
  i : Nat
  delayTimer : Nat
  soundTimer : Nat
  pc : Option Nat
  stack : List (Option Nat)
  paused : Bool
  speed : Nat
  keyWait : Option Nat
  display : Int → Nat

/-- Write to a register: `this.v[x] = val` on the `Uint8Array`, truncating
to 8 bits. -/
def vset (s : CPU) (x val : Nat) : CPU :=
  { s with v := fun j => if j = x then val % 256 else s.v j }

/-- Read `mem[a]` from the 4096-byte `Uint8Array`: out-of-range reads give
`undefined`, which behaves as 0 in every arithmetic/bitwise context the
interpreter uses. -/
def memByte (mem : Nat → Nat) (a : Nat) : Nat :=
  if a < 4096 then mem a else 0

/-- Read a byte of CPU memory. -/
def memRead (s : CPU) (a : Nat) : Nat :=
  memByte s.memory a

/-- Write `this.memory[a] = val`: `Uint8Array` ignores out-of-range writes
and truncates stored values to 8 bits. -/
def memWrite (s : CPU) (a val : Nat) : CPU :=
  if a < 4096 then { s with memory := fun j => if j = a then val % 256 else s.memory j } else s

/-- Advance a possibly-undefined program counter: `undefined + 2` is `NaN`,
which stays non-numeric. -/
def pcAdd (p : Option Nat) (k : Nat) : Option Nat :=
  p.map (· + k)

/-- 8-bit subtraction as performed by a `Uint8Array` store of a JS
difference: two's-complement truncation of `a - b` to 8 bits. -/
def sub8 (a b : Nat) : Nat :=
  (((a : Int) - b) % 256).toNat

/-- The error thrown by `executeInstruction`'s outer `default:` branch:
a `throw new Error` whose message is the text Unknown opcode followed by
the raw word. -/
inductive ExecErr where
  | unknownOpcode (opcode : Nat)
deriving Repr, DecidableEq

/-- Opcode `00E0` (CLS): `this.renderer.clear()`. -/
def opCLS (s : CPU) : CPU :=
  { s with display := rendererClear }

/-- Opcode `00EE` (RET): `this.pc = this.stack.pop()`; popping an empty
array yields `undefined`. -/
def opRET (s : CPU) : CPU :=
  { s with pc := s.stack.head?.join, stack := s.stack.tail }

/-- Opcode `1nnn` (JP addr). -/
def opJP (nnn : Nat) (s : CPU) : CPU :=
  { s with pc := some nnn }

/-- Opcode `2nnn` (CALL addr): pushes the already-advanced `this.pc`. -/
def opCALL (nnn : Nat) (s : CPU) : CPU :=
  { s with stack := s.pc :: s.stack, pc := some nnn }

/-- Opcode `3xkk` (SE Vx, byte). -/
def opSEbyte (x kk : Nat) (s : CPU) : CPU :=
  if s.v x = kk then { s with pc := pcAdd s.pc 2 } else s

/-- Opcode `4xkk` (SNE Vx, byte). -/
def opSNEbyte (x kk : Nat) (s : CPU) : CPU :=
  if s.v x = kk then s else { s with pc := pcAdd s.pc 2 }

/-- Opcode `5xy0` (SE Vx, Vy). -/
def opSEreg (x y : Nat) (s : CPU) : CPU :=
  if s.v x = s.v y then { s with pc := pcAdd s.pc 2 } else s

/-- Opcode `6xkk` (LD Vx, byte). -/
def opLDbyte (x kk : Nat) (s : CPU) : CPU :=
  vset s x kk

/-- Opcode `7xkk` (ADD Vx, byte): `this.v[x] += (opcode & 0xFF)`. -/
def opADDbyte (x kk : Nat) (s : CPU) : CPU :=
  vset s x (s.v x + kk)

/-- Opcode `8xy0` (LD Vx, Vy). -/
def opLDreg (x y : Nat) (s : CPU) : CPU :=
  vset s x (s.v y)

/-- Opcode `8xy1` (OR Vx, Vy). -/
def opOR (x y : Nat) (s : CPU) : CPU :=
  vset s x (s.v x ||| s.v y)

/-- Opcode `8xy2` (AND Vx, Vy). -/
def opAND (x y : Nat) (s : CPU) : CPU :=
  vset s x (s.v x &&& s.v y)

/-- Opcode `8xy3` (XOR Vx, Vy). -/
def opXOR (x y : Nat) (s : CPU) : CPU :=
  vset s x (s.v x ^^^ s.v y)

/-- Opcode `8xy4` (ADD Vx, Vy), in source order:
`let sum = (this.v[x] += this.v[y]);` — the assignment expression's value
is the untruncated sum while the array stores its low 8 bits — then
`this.v[0xF] = 0`, then `if (sum > 0xFF) this.v[0xF] = 1`, then
`this.v[x] = sum`.  Note that for `x = 0xF` the final store overwrites the
flag. -/
def opADDreg (x y : Nat) (s : CPU) : CPU :=
  let sum := s.v x + s.v y
  let s1 := vset s x sum
  let s2 := vset s1 0xF 0
  let s3 := if sum > 0xFF then vset s2 0xF 1 else s2
  vset s3 x sum

/-- Opcode `8xy5` (SUB Vx, Vy), in source order: `this.v[0xF] = 0`, then
`if (this.v[x] > this.v[y]) this.v[0xF] = 1`, then
`this.v[x] -= this.v[y]` — the comparison and subtraction read the
registers after the flag writes, which matters when `x` or `y` is `0xF`. -/
def opSUBreg (x y : Nat) (s : CPU) : CPU :=
  let s1 := vset s 0xF 0
  let s2 := if s1.v x > s1.v y then vset s1 0xF 1 else s1
  vset s2 x (sub8 (s2.v x) (s2.v y))

/-- Opcode `8xy6` (SHR Vx): `this.v[0xF] = (this.v[x] & 0x1)` then
`this.v[x] >>= 1` (the shift reads the register after the flag write). -/
def opSHR (x : Nat) (s : CPU) : CPU :=
  let s1 := vset s 0xF (s.v x &&& 0x1)
  vset s1 x (s1.v x >>> 1)

/-- Opcode `8xy7` (SUBN Vx, Vy), in source order, flag writes first. -/
def opSUBN (x y : Nat) (s : CPU) : CPU :=
  let s1 := vset s 0xF 0
  let s2 := if s1.v y > s1.v x then vset s1 0xF 1 else s1
  vset s2 x (sub8 (s2.v y) (s2.v x))

/-- Opcode `8xyE` (SHL Vx): `this.v[0xF] = (this.v[x] & 0x80)` — the raw
masked byte, not normalized to 0/1 — then `this.v[x] <<= 1`. -/
def opSHL (x : Nat) (s : CPU) : CPU :=
  let s1 := vset s 0xF (s.v x &&& 0x80)
  vset s1 x (s1.v x <<< 1)

/-- Opcode `9xy0` (SNE Vx, Vy). -/
def opSNEreg (x y : Nat) (s : CPU) : CPU :=
  if s.v x = s.v y then s else { s with pc := pcAdd s.pc 2 }

/-- Opcode `Annn` (LD I, addr). -/
def opLDI (nnn : Nat) (s : CPU) : CPU :=
  { s with i := nnn }

/-- Opcode `Bnnn` (JP V0, addr). -/
def opJPV0 (nnn : Nat) (s : CPU) : CPU :=
  { s with pc := some (nnn + s.v 0) }

/-- Opcode `Cxkk` (RND Vx, byte):
`let rand = Math.floor(Math.random() * 0xFF); this.v[x] = rand & (opcode & 0xFF);`
with `Math.random()` modelled by the oracle `u`.  Note the multiplier is
`0xFF = 255`, not 256. -/
def opRND (u : ℚ) (x kk : Nat) (s : CPU) : CPU :=
  let rand := (⌊u * 0xFF⌋).toNat
  vset s x (rand &&& kk)

/-- One guarded toggle from the `Dxyn` inner loop body:
`if (this.renderer.setPixel(this.v[x] + col, this.v[y] + row)) this.v[0xF] = 1;`
The coordinates are read from the registers at call time. -/
def applyPixel (s : CPU) (px py : Int) : CPU :=
  let r := setPixel s.display px py
  let s1 := { s with display := r.1 }
  if r.2 then vset s1 0xF 1 else s1

/-- The `Dxyn` inner column loop: `left` iterations remain, `col` is the
current column index, `sprite` the (left-shifted) row byte. -/
def drawCols (x y row : Nat) : Nat → Nat → Nat → CPU → CPU
  | _, _, 0, s => s
  | col, sprite, left + 1, s =>
    let s1 := if sprite &&& 0x80 > 0 then
        applyPixel s ((s.v x : Int) + (col : Int)) ((s.v y : Int) + (row : Int))
      else s
    drawCols x y row (col + 1) (sprite <<< 1) left s1

/-- The `Dxyn` outer row loop: each row re-reads
`this.memory[this.i + row]` and scans its 8 bits. -/
def drawRows (x y : Nat) : Nat → Nat → CPU → CPU
  | _, 0, s => s
  | row, left + 1, s =>
    let sprite := memRead s (s.i + row)
    let s1 := drawCols x y row 0 sprite 8 s
    drawRows x y (row + 1) left s1

/-- Opcode `Dxyn` (DRW Vx, Vy, nibble): `this.v[0xF] = 0` then the row
scan. -/
def opDRW (x y n : Nat) (s : CPU) : CPU :=
  drawRows x y 0 n (vset s 0xF 0)

/-- Opcode `Ex9E` (SKP Vx). -/
def opSKP (keys : Nat → Bool) (x : Nat) (s : CPU) : CPU :=
  if keys (s.v x) then { s with pc := pcAdd s.pc 2 } else s

/-- Opcode `ExA1` (SKNP Vx). -/
def opSKNP (keys : Nat → Bool) (x : Nat) (s : CPU) : CPU :=
  if keys (s.v x) then s else { s with pc := pcAdd s.pc 2 }

/-- Opcode `Fx07` (LD Vx, DT). -/
def opLDVxDT (x : Nat) (s : CPU) : CPU :=
  vset s x s.delayTimer

/-- Opcode `Fx0A` (LD Vx, K): `this.paused = true` and registration of the
one-shot `onNextKeyPress` callback capturing `x`. -/
def opLDkey (x : Nat) (s : CPU) : CPU :=
  { s with paused := true, keyWait := some x }

/-- Opcode `Fx15` (LD DT, Vx). -/
def opLDDTVx (x : Nat) (s : CPU) : CPU :=
  { s with delayTimer := s.v x }

/-- Opcode `Fx18` (LD ST, Vx). -/
def opLDSTVx (x : Nat) (s : CPU) : CPU :=
  { s with soundTimer := s.v x }

/-- Opcode `Fx1E` (ADD I, Vx): `this.i += this.v[x]` (plain JS number, no
16-bit mask). -/
def opADDI (x : Nat) (s : CPU) : CPU :=
  { s with i := s.i + s.v x }

/-- Opcode `Fx29` (LD F, Vx): `this.i = this.v[x] * 5`. -/
def opLDF (x : Nat) (s : CPU) : CPU :=
  { s with i := s.v x * 5 }

/-- Opcode `Fx33` (LD B, Vx): BCD decomposition stored at `I, I+1, I+2`. -/
def opBCD (x : Nat) (s : CPU) : CPU :=
  let s1 := memWrite s s.i (s.v x / 100)
  let s2 := memWrite s1 (s1.i + 1) (s1.v x % 100 / 10)
  memWrite s2 (s2.i + 2) (s2.v x % 10)

/-- The `Fx55` loop: `for (registerIndex = 0; registerIndex <= x; ...)
this.memory[this.i + registerIndex] = this.v[registerIndex]` with `left`
iterations remaining and `k` the current index. -/
def storeRegs : Nat → Nat → CPU → CPU
  | _, 0, s => s
  | k, left + 1, s => storeRegs (k + 1) left (memWrite s (s.i + k) (s.v k))

/-- The `Fx65` loop: `this.v[registerIndex] = this.memory[this.i + registerIndex]`. -/
def loadRegs : Nat → Nat → CPU → CPU
  | _, 0, s => s
  | k, left + 1, s => loadRegs (k + 1) left (vset s k (memRead s (s.i + k)))

/-- `CPU.executeInstruction(opcode)`: advances `pc` by 2, decodes
`x`/`y`, then dispatches on the high nibble and, for classes 0x0, 0x8,
0xE, 0xF, on a secondary discriminant.  A JS `switch` compares its cases
in order with `===`, rendered here as an if-chain.  Only the outer
switch's `default:` throws. -/
def executeInstruction (keys : Nat → Bool) (u : ℚ) (opcode : Nat) (s : CPU) :
    Except ExecErr CPU :=
  let s := { s with pc := pcAdd s.pc 2 }
  let x := (opcode &&& 0x0F00) >>> 8
  let y := (opcode &&& 0x00F0) >>> 4
  let hi := opcode &&& 0xF000
  if hi = 0x0000 then
    .ok (if opcode = 0x00E0 then opCLS s
      else if opcode = 0x00EE then opRET s
      else s)
  else if hi = 0x1000 then .ok (opJP (opcode &&& 0xFFF) s)
  else if hi = 0x2000 then .ok (opCALL (opcode &&& 0xFFF) s)
  else if hi = 0x3000 then .ok (opSEbyte x (opcode &&& 0xFF) s)
  else if hi = 0x4000 then .ok (opSNEbyte x (opcode &&& 0xFF) s)
  else if hi = 0x5000 then .ok (opSEreg x y s)
  else if hi = 0x6000 then .ok (opLDbyte x (opcode &&& 0xFF) s)
  else if hi = 0x7000 then .ok (opADDbyte x (opcode &&& 0xFF) s)
  else if hi = 0x8000 then
    let lo := opcode &&& 0xF
    .ok (if lo = 0x0 then opLDreg x y s
      else if lo = 0x1 then opOR x y s
      else if lo = 0x2 then opAND x y s
      else if lo = 0x3 then opXOR x y s
      else if lo = 0x4 then opADDreg x y s
      else if lo = 0x5 then opSUBreg x y s
      else if lo = 0x6 then opSHR x s
      else if lo = 0x7 then opSUBN x y s
      else if lo = 0xE then opSHL x s
      else s)
  else if hi = 0x9000 then .ok (opSNEreg x y s)
  else if hi = 0xA000 then .ok (opLDI (opcode &&& 0xFFF) s)
  else if hi = 0xB000 then .ok (opJPV0 (opcode &&& 0xFFF) s)
  else if hi = 0xC000 then .ok (opRND u x (opcode &&& 0xFF) s)
  else if hi = 0xD000 then .ok (opDRW x y (opcode &&& 0xF) s)
  else if hi = 0xE000 then
    let lo := opcode &&& 0xFF
    .ok (if lo = 0x9E then opSKP keys x s
      else if lo = 0xA1 then opSKNP keys x s
      else s)
  else if hi = 0xF000 then
    let lo := opcode &&& 0xFF
    .ok (if lo = 0x07 then opLDVxDT x s
      else if lo = 0x0A then opLDkey x s
      else if lo = 0x15 then opLDDTVx x s
      else if lo = 0x18 then opLDSTVx x s
      else if lo = 0x1E then opADDI x s
      else if lo = 0x29 then opLDF x s
      else if lo = 0x33 then opBCD x s
      else if lo = 0x55 then storeRegs 0 (x + 1) s
      else if lo = 0x65 then loadRegs 0 (x + 1) s
      else s)
  else .error (.unknownOpcode opcode)

/-- `CPU.updateTimers()`: each nonzero timer is decremented by 1. -/
def updateTimers (s : CPU) : CPU :=
  let s := if s.delayTimer > 0 then { s with delayTimer := s.delayTimer - 1 } else s
  if s.soundTimer > 0 then { s with soundTimer := s.soundTimer - 1 } else s

/-- One iteration's fetch+execute from `CPU.cycle()`:
`let opcode = (this.memory[this.pc] << 8 | this.memory[this.pc + 1]);
this.executeInstruction(opcode);`.  When `pc` is `undefined`, both memory
reads give `undefined`, the opcode is `NaN`, `NaN & 0xF000` is 0, the
inner `case 0x00E0`/`case 0x00EE` comparisons fail, and only
`this.pc += 2` runs, leaving `pc` still `NaN`: the state is unchanged. -/
def execStep (keys : Nat → Bool) (u : ℚ) (s : CPU) : Except ExecErr CPU :=
  match s.pc with
  | none => .ok s
  | some p => executeInstruction keys u ((memRead s p) <<< 8 ||| memRead s (p + 1)) s

/-- The instruction loop of `CPU.cycle()`: `speed` iterations, each
executing one instruction when not paused; `idx` numbers the iteration so
each can draw its own random oracle value. -/
def cycleSteps (keys : Nat → Bool) (u : Nat → ℚ) : Nat → Nat → CPU → Except ExecErr CPU
  | _, 0, s => .ok s
  | idx, left + 1, s => do
    let s1 ← if s.paused then .ok s else execStep keys (u idx) s
    cycleSteps keys u (idx + 1) left s1

/-- The observable collaborator activity of one `CPU.cycle()` call:
the machine state, whether `playSound` asked the speaker to play (true,
`soundTimer > 0`) or to stop, and that `renderer.render()` was invoked. -/
structure CycleOut where
  cpu : CPU
  tonePlayed : Bool
  rendered : Bool

/-- `CPU.cycle()`: the instruction loop, then
`if (!this.paused) this.updateTimers();`, then `playSound()` and
`renderer.render()` unconditionally. -/
def cycle (keys : Nat → Bool) (u : Nat → ℚ) (s : CPU) : Except ExecErr CycleOut := do
  let s1 ← cycleSteps keys u 0 s.speed s
  let s2 := if s1.paused then s1 else updateTimers s1
  .ok ⟨s2, decide (s2.soundTimer > 0), true⟩

/-- The machine state built by the `CPU` constructor (memory zero-filled,
registers zeroed, `pc = 0x200`, empty stack, `speed = 10`) with a fresh
display. -/
def initCPU : CPU :=
  { memory := fun _ => 0
    v := fun _ => 0
    i := 0
    delayTimer := 0
    soundTimer := 0
    pc := some 0x200
    stack := []
    paused := false
    speed := 10
    keyWait := none
    display := fun _ => 0 }

/-- `CPU.loadProgramIntoMemory(program)`: byte `loc` of the program is
stored at `0x200 + loc`. -/
def loadProgramFrom : CPU → Nat → List Nat → CPU
  | s, _, [] => s
  | s, loc, b :: rest => loadProgramFrom (memWrite s (0x200 + loc) b) (loc + 1) rest

/-- Load a program image starting at address 0x200. -/
def loadProgram (s : CPU) (program : List Nat) : CPU :=
  loadProgramFrom s 0 program

/-- A keyboard oracle with no key held. -/
def noKeys : Nat → Bool := fun _ => false

/-- A fixed random oracle value. -/
def uZero : ℚ := 0

/-- A fixed random oracle stream. -/
def uZeros : Nat → ℚ := fun _ => 0

/-! ## Claim C1: unknown-opcode handling -/

/-- C1: the claim fails on the code.  Every 16-bit word has a high nibble
matched by one of the sixteen outer switch cases, so the `default:` throw
is unreachable for fetched words: executing `0xFFFF` falls into the
`case 0xF000` branch, matches no secondary case, and silently performs
only the `pc += 2` pre-advance.  In particular, running the two-byte
program `0xFF,0xFF` executes without any error and leaves `pc = 0x202`. -/
theorem c1_ffff_executes_silently :
    (∀ (keys : Nat → Bool) (u : ℚ) (s : CPU),
        executeInstruction keys u 0xFFFF s = .ok { s with pc := pcAdd s.pc 2 })
  ∧ ((execStep noKeys uZero (loadProgram initCPU [0xFF, 0xFF])).toOption.map
        (fun t => t.pc)) = some (some 0x202) :=
  ⟨fun _ _ _ => rfl, rfl⟩

/-! ## Claim C2: display wrap at the boundary -/

/-- C2: the claim fails on the code.  The wrap in `setPixel` uses a strict
comparison `x > this.cols`, so `x = 64` is not wrapped: `setPixel(64, 0)`
toggles display index 64 — the pixel at (0, 1) — and leaves index 0 (the
pixel (0, 0) that the claimed equivalence with `x = 0` would toggle)
untouched, while `setPixel(0, 0)` toggles index 0.  The negative side
`x = -1 ↦ 63` does behave as claimed. -/
theorem c2_setPixel_64_unwrapped :
    (setPixel (fun _ => 0) 64 0).1 64 = 1
  ∧ (setPixel (fun _ => 0) 64 0).1 0 = 0
  ∧ (setPixel (fun _ => 0) 0 0).1 0 = 1
  ∧ (setPixel (fun _ => 0) (-1) 0).1 63 = 1 := by
  refine ⟨?_, ?_, ?_, ?_⟩ <;> decide

/-! ## Claim C3: return with an empty call stack -/

/-- C3: the claim fails on the code.  Executing `0x00EE` with an empty
call stack performs `this.pc = this.stack.pop()`, and popping an empty JS
array yields `undefined`; no error of any kind is raised and the machine
continues with a non-numeric program counter (modelled as `pc = none`). -/
theorem c3_ret_empty_stack_undefined_pc :
    (executeInstruction noKeys uZero 0x00EE initCPU).toOption.map (fun t => t.pc)
      = some none :=
  rfl

/-! ## Claim C4: behaviour of a frame cycle while paused -/

/-- While paused, the instruction loop of `cycle` leaves the state
untouched. -/
lemma cycleSteps_paused (keys : Nat → Bool) (u : Nat → ℚ) :
    ∀ (left idx : Nat) (s : CPU), s.paused = true →
      cycleSteps keys u idx left s = .ok s := by
  intro left
  induction left with
  | zero => intro idx s _; rfl
  | succ n ih =>
    intro idx s hp
    simp only [cycleSteps, hp, if_true]
    exact ih (idx + 1) s hp

/-- C4 (amended): while `paused` is true, a frame cycle executes no
instruction and also skips the timer update (`updateTimers` is guarded by
`!this.paused`), leaving the whole machine state unchanged; the tone
query (`playSound`) and the render call still occur. -/
theorem c4_paused_cycle (keys : Nat → Bool) (u : Nat → ℚ) (s : CPU)
    (hp : s.paused = true) :
    cycle keys u s = .ok ⟨s, decide (0 < s.soundTimer), true⟩ := by
  have h := cycleSteps_paused keys u s.speed 0 s hp
  unfold cycle
  rw [h]
  show (Except.ok (CycleOut.mk (if s.paused = true then s else updateTimers s)
        (decide ((if s.paused = true then s else updateTimers s).soundTimer > 0)) true)
      : Except ExecErr CycleOut)
    = Except.ok (CycleOut.mk s (decide (0 < s.soundTimer)) true)
  rw [if_pos hp]

/-- A concrete paused machine with nonzero timers. -/
def pausedCPU : CPU :=
  { initCPU with paused := true, delayTimer := 5, soundTimer := 7 }

/-- C4 counterexample: on a paused machine with `delayTimer = 5` and
`soundTimer = 7`, a frame cycle leaves both timers unchanged at (5, 7),
whereas the claim requires each nonzero timer to be decremented to (4, 6). -/
theorem c4_counterexample :
    (cycle noKeys uZeros pausedCPU).toOption.map
        (fun o => (o.cpu.delayTimer, o.cpu.soundTimer)) = some (5, 7)
  ∧ ((5, 7) : Nat × Nat) ≠ (4, 6) :=
  ⟨rfl, by decide⟩

/-- C4 witness: the amended theorem applied to the concrete paused
machine. -/
theorem c4_paused_cycle_witness :
    cycle noKeys uZeros pausedCPU = .ok ⟨pausedCPU, decide (0 < pausedCPU.soundTimer), true⟩ :=
  c4_paused_cycle noKeys uZeros pausedCPU rfl

/-! ## Claim C9: range of the random byte -/

/-- C9: the claim fails on the code.  `Math.floor(Math.random() * 0xFF)`
with `Math.random() ∈ [0, 1)` ranges over [0, 254]: the pre-mask draw 255
is impossible, so executing `RND V0, 0xFF` always stores a value < 255 in
V0 (and the draw is not uniform over [0, 255]). -/
theorem c9_random_byte_below_255 (u : ℚ) (h0 : 0 ≤ u) (h1 : u < 1)
    (keys : Nat → Bool) (s : CPU) :
    ∃ t, executeInstruction keys u 0xC0FF s = .ok t ∧ t.v 0 < 255 := by
  refine ⟨opRND u 0 255 { s with pc := pcAdd s.pc 2 }, rfl, ?_⟩
  show ((⌊u * 255⌋).toNat &&& 255) % 256 < 255
  have hfl : ⌊u * 255⌋ < 255 := by
    have hm : u * 255 < 255 := by nlinarith
    exact_mod_cast Int.floor_lt.mpr (by exact_mod_cast hm)
  have hr : (⌊u * 255⌋).toNat < 255 := by
    rcases Int.le_or_lt 0 ⌊u * 255⌋ with h | h
    · omega
    · simp [Int.toNat_of_nonpos h.le]
  have hand : (⌊u * 255⌋).toNat &&& 255 ≤ (⌊u * 255⌋).toNat := Nat.and_le_left
  have hmod : ((⌊u * 255⌋).toNat &&& 255) % 256 ≤ (⌊u * 255⌋).toNat &&& 255 :=
    Nat.mod_le _ _
  omega

/-- C9 witness: the theorem at the concrete oracle value 0. -/
theorem c9_random_byte_below_255_witness :
    ∃ t, executeInstruction noKeys (0 : ℚ) 0xC0FF initCPU = .ok t ∧ t.v 0 < 255 :=
  c9_random_byte_below_255 0 (le_refl 0) one_pos noKeys initCPU

/-! ## Decoding facts for parametric opcode families -/

set_option maxHeartbeats 4000000 in
/-- Field extraction for the arithmetic family `0x8xyk`. -/
lemma decode8 (x y k : Nat) (hx : x ≤ 15) (hy : y ≤ 15) (hk : k ≤ 15) :
    (0x8000 + 256 * x + 16 * y + k) &&& 0xF000 = 0x8000
  ∧ ((0x8000 + 256 * x + 16 * y + k) &&& 0x0F00) >>> 8 = x
  ∧ ((0x8000 + 256 * x + 16 * y + k) &&& 0x00F0) >>> 4 = y
  ∧ (0x8000 + 256 * x + 16 * y + k) &&& 0xF = k := by
  interval_cases x <;> interval_cases y <;> interval_cases k <;> exact ⟨rfl, rfl, rfl, rfl⟩

set_option maxHeartbeats 1000000 in
/-- Field extraction for the block transfer opcodes `Fx55` and `Fx65`. -/
lemma decodeF (x : Nat) (hx : x ≤ 15) :
    (0xF000 + 256 * x + 0x55) &&& 0xF000 = 0xF000
  ∧ ((0xF000 + 256 * x + 0x55) &&& 0x0F00) >>> 8 = x
  ∧ (0xF000 + 256 * x + 0x55) &&& 0xFF = 0x55
  ∧ (0xF000 + 256 * x + 0x65) &&& 0xF000 = 0xF000
  ∧ ((0xF000 + 256 * x + 0x65) &&& 0x0F00) >>> 8 = x
  ∧ (0xF000 + 256 * x + 0x65) &&& 0xFF = 0x65 := by
  interval_cases x <;> exact ⟨rfl, rfl, rfl, rfl, rfl, rfl⟩

/-! ## Claim C5: ADD Vx, Vy -/

/-- C5 (amended): for every register pair with `x ≠ 0xF` and 8-bit values
a, b held in them, `8xy4` stores `(a + b) % 256` in Vx and sets VF to 1
iff the untruncated sum exceeds 255.  (When `x = 0xF` the final result
store overwrites the flag, see the counterexample.) -/
theorem c5_add_overflow_flag (x y : Nat) (hx : x ≤ 15) (hy : y ≤ 15)
    (hxF : x ≠ 15) (keys : Nat → Bool) (u : ℚ) (s : CPU) (a b : Nat)
    (ha : s.v x = a) (hb : s.v y = b) (ha8 : a < 256) (hb8 : b < 256) :
    ∃ t, executeInstruction keys u (0x8000 + 256 * x + 16 * y + 4) s = .ok t
      ∧ t.v x = (a + b) % 256
      ∧ t.v 15 = if 255 < a + b then 1 else 0 := by
  obtain ⟨d1, d2, d3, d4⟩ := decode8 x y 4 hx hy (by decide)
  have hrun : executeInstruction keys u (0x8000 + 256 * x + 16 * y + 4) s
      = .ok (opADDreg x y { s with pc := pcAdd s.pc 2 }) := by
    simp only [executeInstruction, d1, d2, d3, d4]
    norm_num
  refine ⟨_, hrun, ?_, ?_⟩
  · simp only [opADDreg, vset, ha, hb]
    simp
  · have h15 : ¬ (15 : Nat) = x := fun h => hxF h.symm
    simp only [opADDreg, vset, ha, hb]
    split_ifs <;> simp_all

/-- A machine with VF = 1 and V0 = 2. -/
def addVFstate : CPU := vset (vset initCPU 0xF 1) 0 2

/-- C5 counterexample: `ADD VF, V0` (opcode `0x8F04`) with VF = 1, V0 = 2.
The untruncated sum is 3 ≤ 255, so the claim requires VF = 0 after the
instruction, but the final store `this.v[x] = sum` lands in VF and leaves
VF = 3. -/
theorem c5_counterexample :
    (executeInstruction noKeys uZero 0x8F04 addVFstate).toOption.map (fun t => t.v 15)
        = some 3
  ∧ (3 : Nat) ≠ 0 :=
  ⟨rfl, by decide⟩

/-- A machine with V1 = 200 and V2 = 100. -/
def addWitState : CPU := vset (vset initCPU 1 200) 2 100

/-- C5 witness: `ADD V1, V2` with V1 = 200, V2 = 100 wraps to 44 and sets
the carry flag. -/
theorem c5_add_overflow_flag_witness :
    ∃ t, executeInstruction noKeys uZero (0x8000 + 256 * 1 + 16 * 2 + 4) addWitState = .ok t
      ∧ t.v 1 = (200 + 100) % 256
      ∧ t.v 15 = if 255 < 200 + 100 then 1 else 0 :=
  c5_add_overflow_flag 1 2 (by decide) (by decide) (by decide) noKeys uZero
    addWitState 200 100 rfl rfl (by decide) (by decide)

/-! ## Claim C6: SUB Vx, Vy -/

/-- The 8-bit wrapped difference is below 256. -/
lemma sub8_lt (a b : Nat) : sub8 a b < 256 := by
  unfold sub8
  have h1 := Int.emod_lt_of_pos ((a : Int) - b) (show (0 : Int) < 256 by norm_num)
  have h2 := Int.emod_nonneg ((a : Int) - b) (show (256 : Int) ≠ 0 by norm_num)
  omega

/-- The 8-bit wrapped difference, seen in ℤ. -/
lemma sub8_cast (a b : Nat) : (sub8 a b : Int) = ((a : Int) - b) % 256 := by
  unfold sub8
  exact Int.toNat_of_nonneg (Int.emod_nonneg _ (by norm_num))

/-- C6 (amended): for every register pair with `x ≠ 0xF` and `y ≠ 0xF` and
8-bit values a, b held in them, `8xy5` stores `(a - b) mod 256`
(two's-complement wrap) in Vx and sets VF to 1 iff `a > b`.  (When VF is
an operand, the `this.v[0xF] = 0` flag initialisation clobbers it before
the comparison and subtraction read it, see the counterexample.) -/
theorem c6_sub_borrow_flag (x y : Nat) (hx : x ≤ 15) (hy : y ≤ 15)
    (hxF : x ≠ 15) (hyF : y ≠ 15) (keys : Nat → Bool) (u : ℚ) (s : CPU) (a b : Nat)
    (ha : s.v x = a) (hb : s.v y = b) (ha8 : a < 256) (hb8 : b < 256) :
    ∃ t, executeInstruction keys u (0x8000 + 256 * x + 16 * y + 5) s = .ok t
      ∧ (t.v x : Int) = ((a : Int) - b) % 256
      ∧ t.v 15 = if b < a then 1 else 0 := by
  obtain ⟨d1, d2, d3, d4⟩ := decode8 x y 5 hx hy (by decide)
  have hrun : executeInstruction keys u (0x8000 + 256 * x + 16 * y + 5) s
      = .ok (opSUBreg x y { s with pc := pcAdd s.pc 2 }) := by
    simp only [executeInstruction, d1, d2, d3, d4]
    norm_num
  refine ⟨_, hrun, ?_, ?_⟩
  · have hmod : sub8 a b % 256 = sub8 a b := Nat.mod_eq_of_lt (sub8_lt a b)
    simp only [opSUBreg, vset, ha, hb]
    split_ifs <;> simp_all [sub8_cast]
  · have h15 : ¬ (15 : Nat) = x := fun h => hxF h.symm
    simp only [opSUBreg, vset, ha, hb]
    split_ifs <;> simp_all

/-- A machine with VF = 5 and V0 = 1. -/
def subVFstate : CPU := vset (vset initCPU 0xF 5) 0 1

/-- C6 counterexample: `SUB VF, V0` (opcode `0x8F05`) with VF = 5, V0 = 1.
The claim requires the stored result `(5 - 1) mod 256 = 4` in Vx = VF, but
the flag initialisation zeroes VF first, the comparison `0 > 1` fails, and
the subtraction computes `(0 - 1) mod 256 = 255`. -/
theorem c6_counterexample :
    (executeInstruction noKeys uZero 0x8F05 subVFstate).toOption.map (fun t => t.v 15)
        = some 255
  ∧ (255 : Nat) ≠ 4 :=
  ⟨rfl, by decide⟩

/-- A machine with V1 = 5 and V2 = 9. -/
def subWitState : CPU := vset (vset initCPU 1 5) 2 9

/-- C6 witness: `SUB V1, V2` with V1 = 5, V2 = 9 wraps to 252 with VF = 0. -/
theorem c6_sub_borrow_flag_witness :
    ∃ t, executeInstruction noKeys uZero (0x8000 + 256 * 1 + 16 * 2 + 5) subWitState = .ok t
      ∧ (t.v 1 : Int) = ((5 : Int) - 9) % 256
      ∧ t.v 15 = if 9 < 5 then 1 else 0 :=
  c6_sub_borrow_flag 1 2 (by decide) (by decide) (by decide) (by decide) noKeys uZero
    subWitState 5 9 rfl rfl (by decide) (by decide)

/-! ## Claim C7: shifts -/

/-- C7 (amended): for `x ≠ 0xF` and an 8-bit value a in Vx, `8xy6` stores
the pre-shift least-significant bit `a &&& 1` in VF and `a >>> 1` in Vx,
and `8xyE` stores the raw masked byte `a &&& 0x80` (0 or 128, not
normalized) in VF and `(a <<< 1) % 256` in Vx.  (When `x = 0xF` the shift
result overwrites the freshly written flag, see the counterexample.) -/
theorem c7_shift_flags (x y : Nat) (hx : x ≤ 15) (hy : y ≤ 15)
    (hxF : x ≠ 15) (keys : Nat → Bool) (u : ℚ) (s : CPU) (a : Nat)
    (ha : s.v x = a) (ha8 : a < 256) :
    ∃ t1 t2, executeInstruction keys u (0x8000 + 256 * x + 16 * y + 6) s = .ok t1
      ∧ t1.v 15 = a &&& 1
      ∧ t1.v x = a >>> 1
      ∧ executeInstruction keys u (0x8000 + 256 * x + 16 * y + 0xE) s = .ok t2
      ∧ t2.v 15 = a &&& 0x80
      ∧ t2.v x = (a <<< 1) % 256 := by
  obtain ⟨d1, d2, d3, d4⟩ := decode8 x y 6 hx hy (by decide)
  obtain ⟨e1, e2, e3, e4⟩ := decode8 x y 0xE hx hy (by decide)
  have hrun1 : executeInstruction keys u (0x8000 + 256 * x + 16 * y + 6) s
      = .ok (opSHR x { s with pc := pcAdd s.pc 2 }) := by
    simp only [executeInstruction, d1, d2, d3, d4]
    norm_num
  have hrun2 : executeInstruction keys u (0x8000 + 256 * x + 16 * y + 0xE) s
      = .ok (opSHL x { s with pc := pcAdd s.pc 2 }) := by
    simp only [executeInstruction, e1, e2, e3, e4]
    norm_num
  have h15 : ¬ (15 : Nat) = x := fun h => hxF h.symm
  have hb1 : a &&& 1 < 256 := lt_of_le_of_lt Nat.and_le_right (by norm_num)
  have hb80 : a &&& 0x80 < 256 := lt_of_le_of_lt Nat.and_le_right (by norm_num)
  have hshr : a >>> 1 < 256 := by
    rw [Nat.shiftRight_eq_div_pow]
    omega
  refine ⟨_, _, hrun1, ?_, ?_, hrun2, ?_, ?_⟩
  · simp only [opSHR, vset, ha]
    simp [h15, Nat.mod_eq_of_lt hb1] <;> omega
  · simp only [opSHR, vset]
    simp [hxF, ha, Nat.mod_eq_of_lt hshr] <;> omega
  · simp only [opSHL, vset, ha]
    simp [h15, Nat.mod_eq_of_lt hb80] <;> omega
  · simp only [opSHL, vset]
    simp [hxF, ha]

/-- A machine with VF = 3. -/
def shrVFstate : CPU := vset initCPU 0xF 3

/-- C7 counterexample: `SHR VF` (opcode `0x8F06`) with VF = 3.  The
pre-shift least-significant bit is 1, so the claim requires VF = 1, but
the subsequent shift store `this.v[x] >>= 1` lands in VF and leaves
`1 >>> 1 = 0`. -/
theorem c7_counterexample :
    (executeInstruction noKeys uZero 0x8F06 shrVFstate).toOption.map (fun t => t.v 15)
        = some 0
  ∧ (0 : Nat) ≠ 1 :=
  ⟨rfl, by decide⟩

/-- A machine with V1 = 0xB5. -/
def shiftWitState : CPU := vset initCPU 1 0xB5

/-- C7 witness: both shifts on V1 = 0xB5. -/
theorem c7_shift_flags_witness :
    ∃ t1 t2, executeInstruction noKeys uZero (0x8000 + 256 * 1 + 16 * 0 + 6) shiftWitState = .ok t1
      ∧ t1.v 15 = 0xB5 &&& 1
      ∧ t1.v 1 = 0xB5 >>> 1
      ∧ executeInstruction noKeys uZero (0x8000 + 256 * 1 + 16 * 0 + 0xE) shiftWitState = .ok t2
      ∧ t2.v 15 = 0xB5 &&& 0x80
      ∧ t2.v 1 = (0xB5 <<< 1) % 256 :=
  c7_shift_flags 1 0 (by decide) (by decide) (by decide) noKeys uZero
    shiftWitState 0xB5 rfl (by decide)

/-! ## Claim C10: frame effect of Fx55 / Fx65 -/

/-- A memory write leaves every other field unchanged. -/
lemma memWrite_frame (s : CPU) (a val : Nat) :
    (memWrite s a val).i = s.i ∧ (memWrite s a val).pc = s.pc
  ∧ (memWrite s a val).stack = s.stack ∧ (memWrite s a val).delayTimer = s.delayTimer
  ∧ (memWrite s a val).soundTimer = s.soundTimer ∧ (memWrite s a val).paused = s.paused
  ∧ (memWrite s a val).v = s.v ∧ (memWrite s a val).display = s.display := by
  unfold memWrite
  split <;> exact ⟨rfl, rfl, rfl, rfl, rfl, rfl, rfl, rfl⟩

/-- The `Fx55` store loop touches only memory. -/
lemma storeRegs_frame : ∀ (left k : Nat) (s : CPU),
    (storeRegs k left s).i = s.i
  ∧ (storeRegs k left s).pc = s.pc
  ∧ (storeRegs k left s).stack = s.stack
  ∧ (storeRegs k left s).delayTimer = s.delayTimer
  ∧ (storeRegs k left s).soundTimer = s.soundTimer
  ∧ (storeRegs k left s).paused = s.paused := by
  intro left
  induction left with
  | zero => intro k s; exact ⟨rfl, rfl, rfl, rfl, rfl, rfl⟩
  | succ n ih =>
    intro k s
    obtain ⟨h1, h2, h3, h4, h5, h6⟩ := ih (k + 1) (memWrite s (s.i + k) (s.v k))
    obtain ⟨m1, m2, m3, m4, m5, m6, -, -⟩ := memWrite_frame s (s.i + k) (s.v k)
    simp only [storeRegs]
    exact ⟨h1.trans m1, h2.trans m2, h3.trans m3, h4.trans m4, h5.trans m5, h6.trans m6⟩

/-- The `Fx65` load loop touches only the registers. -/
lemma loadRegs_frame : ∀ (left k : Nat) (s : CPU),
    (loadRegs k left s).i = s.i
  ∧ (loadRegs k left s).pc = s.pc
  ∧ (loadRegs k left s).stack = s.stack
  ∧ (loadRegs k left s).delayTimer = s.delayTimer
  ∧ (loadRegs k left s).soundTimer = s.soundTimer
  ∧ (loadRegs k left s).paused = s.paused := by
  intro left
  induction left with
  | zero => intro k s; exact ⟨rfl, rfl, rfl, rfl, rfl, rfl⟩
  | succ n ih =>
    intro k s
    have h := ih (k + 1) (vset s k (memRead s (s.i + k)))
    simp only [loadRegs]
    exact h

/-- C10: for every machine state and register index, `Fx55` (store
V0..Vx at I) and `Fx65` (load V0..Vx from I) leave the address register I
unchanged, advance PC by exactly the normal +2, and leave the stack, both
timers and the paused flag unchanged. -/
theorem c10_block_transfer_frame (x : Nat) (hx : x ≤ 15)
    (keys : Nat → Bool) (u : ℚ) (s : CPU) :
    ∃ t1 t2, executeInstruction keys u (0xF000 + 256 * x + 0x55) s = .ok t1
      ∧ executeInstruction keys u (0xF000 + 256 * x + 0x65) s = .ok t2
      ∧ t1.i = s.i ∧ t1.pc = pcAdd s.pc 2 ∧ t1.stack = s.stack
      ∧ t1.delayTimer = s.delayTimer ∧ t1.soundTimer = s.soundTimer
      ∧ t1.paused = s.paused
      ∧ t2.i = s.i ∧ t2.pc = pcAdd s.pc 2 ∧ t2.stack = s.stack
      ∧ t2.delayTimer = s.delayTimer ∧ t2.soundTimer = s.soundTimer
      ∧ t2.paused = s.paused := by
  obtain ⟨d1, d2, d3, e1, e2, e3⟩ := decodeF x hx
  have hrun1 : executeInstruction keys u (0xF000 + 256 * x + 0x55) s
      = .ok (storeRegs 0 (x + 1) { s with pc := pcAdd s.pc 2 }) := by
    simp only [executeInstruction, d1, d2, d3]
    norm_num
  have hrun2 : executeInstruction keys u (0xF000 + 256 * x + 0x65) s
      = .ok (loadRegs 0 (x + 1) { s with pc := pcAdd s.pc 2 }) := by
    simp only [executeInstruction, e1, e2, e3]
    norm_num
  obtain ⟨s1, s2, s3, s4, s5, s6⟩ := storeRegs_frame (x + 1) 0 { s with pc := pcAdd s.pc 2 }
  obtain ⟨l1, l2, l3, l4, l5, l6⟩ := loadRegs_frame (x + 1) 0 { s with pc := pcAdd s.pc 2 }
  exact ⟨_, _, hrun1, hrun2, s1, s2, s3, s4, s5, s6, l1, l2, l3, l4, l5, l6⟩

/-- C10 witness: the theorem at x = 3 on the initial machine. -/
theorem c10_block_transfer_frame_witness :
    ∃ t1 t2, executeInstruction noKeys uZero (0xF000 + 256 * 3 + 0x55) initCPU = .ok t1
      ∧ executeInstruction noKeys uZero (0xF000 + 256 * 3 + 0x65) initCPU = .ok t2
      ∧ t1.i = initCPU.i ∧ t1.pc = pcAdd initCPU.pc 2 ∧ t1.stack = initCPU.stack
      ∧ t1.delayTimer = initCPU.delayTimer ∧ t1.soundTimer = initCPU.soundTimer
      ∧ t1.paused = initCPU.paused
      ∧ t2.i = initCPU.i ∧ t2.pc = pcAdd initCPU.pc 2 ∧ t2.stack = initCPU.stack
      ∧ t2.delayTimer = initCPU.delayTimer ∧ t2.soundTimer = initCPU.soundTimer
      ∧ t2.paused = initCPU.paused :=
  c10_block_transfer_frame 3 (by decide) noKeys uZero initCPU

/-! ## Claim C8: the sprite draw
The `Dxyn` scan is related to an abstract sequence of XOR toggles at
display locations, so that the two-draws-restore property and the
collision flag can be analysed through toggle counts. -/

/-- XOR-toggle a single display location. -/
def toggleAt (d : Int → Nat) (p : Int) : Int → Nat :=
  fun q => if q = p then d p ^^^ 1 else d q

/-- Run a sequence of toggles, recording whether some toggle turned a
previously-on pixel off. -/
def runToggles (d : Int → Nat) : List Int → ((Int → Nat) × Bool)
  | [] => (d, false)
  | p :: rest =>
    let r := runToggles (toggleAt d p) rest
    (r.1, (d p == 1) || r.2)

/-- `setPixel` is the toggle of the wrapped location, reporting whether
the pixel was previously on. -/
lemma setPixel_eq (d : Int → Nat) (x y : Int) :
    setPixel d x y = (toggleAt d (wrapLoc x y), d (wrapLoc x y) == 1) := by
  have h : (d (wrapLoc x y) ^^^ 1 == 0) = (d (wrapLoc x y) == 1) := by
    rcases eq_or_ne (d (wrapLoc x y)) 1 with h | h
    · simp [h]
    · have hne : d (wrapLoc x y) ^^^ 1 ≠ 0 := by
        intro hc
        apply h
        have h2 : d (wrapLoc x y) ^^^ 1 ^^^ 1 = 0 ^^^ 1 := by rw [hc]
        rwa [Nat.xor_cancel_right, Nat.zero_xor] at h2
      simp [h, hne]
  simp only [setPixel, toggleAt, h]
  rfl

/-- The display after a toggle run flips exactly the locations toggled an
odd number of times. -/
lemma runToggles_fst (L : List Int) : ∀ (d : Int → Nat) (q : Int),
    (runToggles d L).1 q = if L.count q % 2 = 1 then d q ^^^ 1 else d q := by
  induction L with
  | nil => intro d q; simp [runToggles]
  | cons p rest ih =>
    intro d q
    simp only [runToggles]
    rw [ih (toggleAt d p) q]
    by_cases hq : q = p
    · subst hq
      have hcnt : (q :: rest).count q = rest.count q + 1 := by
        simp [List.count_cons]
      rcases Nat.mod_two_eq_zero_or_one (rest.count q) with h | h
      · have h1 : (rest.count q + 1) % 2 = 1 := by omega
        simp [toggleAt, hcnt, h, h1]
      · have h1 : (rest.count q + 1) % 2 ≠ 1 := by omega
        simp [toggleAt, hcnt, h, h1, Nat.xor_cancel_right]
    · have hcnt : (p :: rest).count q = rest.count q := by
        simp [List.count_cons, hq, Ne.symm hq]
      simp [toggleAt, hq, hcnt]

/-- Toggling the same location list twice restores the display. -/
lemma runToggles_invol (L : List Int) (d : Int → Nat) (q : Int) :
    (runToggles (runToggles d L).1 L).1 q = d q := by
  rw [runToggles_fst, runToggles_fst]
  by_cases h : L.count q % 2 = 1 <;> simp [h, Nat.xor_cancel_right]

/-- On a duplicate-free toggle list, the collision bit is set iff some
toggled location was on before the run. -/
lemma runToggles_snd (L : List Int) : ∀ d : Int → Nat, L.Nodup →
    ((runToggles d L).2 = true ↔ ∃ p ∈ L, d p = 1) := by
  induction L with
  | nil => intro d _; simp [runToggles]
  | cons p rest ih =>
    intro d hnd
    obtain ⟨hp, hnd'⟩ := List.nodup_cons.mp hnd
    simp only [runToggles, Bool.or_eq_true, beq_iff_eq]
    rw [ih (toggleAt d p) hnd']
    constructor
    · rintro (h | ⟨q, hq, hdq⟩)
      · exact ⟨p, List.mem_cons_self p rest, h⟩
      · refine ⟨q, List.mem_cons_of_mem p hq, ?_⟩
        have hqp : q ≠ p := fun hqp => hp (hqp ▸ hq)
        simpa [toggleAt, hqp] using hdq
    · rintro ⟨q, hq, hdq⟩
      rcases List.mem_cons.mp hq with hqp | hq'
      · subst hqp; exact Or.inl hdq
      · right
        refine ⟨q, hq', ?_⟩
        have hqp : q ≠ p := fun hqp => hp (hqp ▸ hq')
        simpa [toggleAt, hqp] using hdq

/-- On a duplicate-free toggle list, some previously-on pixel ends up off
iff some toggled location was previously on. -/
lemma runToggles_net_off (L : List Int) (d : Int → Nat) (hnd : L.Nodup) :
    (∃ p, d p = 1 ∧ (runToggles d L).1 p = 0) ↔ ∃ p ∈ L, d p = 1 := by
  constructor
  · rintro ⟨p, h1, h0⟩
    rw [runToggles_fst] at h0
    by_cases hc : L.count p % 2 = 1
    · have hpos : 0 < L.count p := by omega
      exact ⟨p, List.count_pos_iff.mp hpos, h1⟩
    · rw [if_neg hc] at h0
      rw [h1] at h0
      exact absurd h0 one_ne_zero
  · rintro ⟨p, hm, h1⟩
    refine ⟨p, h1, ?_⟩
    rw [runToggles_fst]
    have hc : L.count p = 1 := List.count_eq_one_of_mem hnd hm
    simp [hc, h1]

/-- A toggle run over an appended list is the two runs in sequence, with
the collision bits OR-ed. -/
lemma runToggles_append (L1 L2 : List Int) : ∀ d : Int → Nat,
    runToggles d (L1 ++ L2)
      = ((runToggles (runToggles d L1).1 L2).1,
          (runToggles d L1).2 || (runToggles (runToggles d L1).1 L2).2) := by
  induction L1 with
  | nil => intro d; simp [runToggles]
  | cons p rest ih =>
    intro d
    simp only [List.cons_append, runToggles, List.append_eq]
    rw [ih (toggleAt d p)]
    simp [Bool.or_assoc]

/-- The display locations toggled by the inner column loop of `Dxyn`, for
fixed register values `vx`, `vy`. -/
def colLocs (vx vy row : Nat) : Nat → Nat → Nat → List Int
  | _, _, 0 => []
  | col, sprite, left + 1 =>
    (if sprite &&& 0x80 > 0
      then [wrapLoc ((vx : Int) + (col : Int)) ((vy : Int) + (row : Int))]
      else [])
      ++ colLocs vx vy row (col + 1) (sprite <<< 1) left

/-- The display locations toggled by the whole `Dxyn` scan. -/
def rowLocs (vx vy : Nat) (mem : Nat → Nat) (i : Nat) : Nat → Nat → List Int
  | _, 0 => []
  | row, left + 1 =>
    colLocs vx vy row 0 (memByte mem (i + row)) 8
      ++ rowLocs vx vy mem i (row + 1) left

/-- `applyPixel` in terms of the toggle of the wrapped location. -/
lemma applyPixel_eq (s : CPU) (px py : Int) :
    applyPixel s px py
      = (if s.display (wrapLoc px py) == 1
          then vset { s with display := toggleAt s.display (wrapLoc px py) } 15 1
          else { s with display := toggleAt s.display (wrapLoc px py) }) := by
  simp only [applyPixel, setPixel_eq]

/-- The inner column loop performs exactly the toggles of `colLocs`,
sets VF to 1 when some toggle erased a pixel, and touches nothing else. -/
lemma drawCols_spec (x y : Nat) (hx : x ≠ 15) (hy : y ≠ 15) :
    ∀ (left col sprite row : Nat) (s : CPU),
      (drawCols x y row col sprite left s).display
          = (runToggles s.display (colLocs (s.v x) (s.v y) row col sprite left)).1
      ∧ (∀ j, j ≠ 15 → (drawCols x y row col sprite left s).v j = s.v j)
      ∧ (drawCols x y row col sprite left s).v 15
          = (if (runToggles s.display (colLocs (s.v x) (s.v y) row col sprite left)).2
              then 1 else s.v 15)
      ∧ (drawCols x y row col sprite left s).memory = s.memory
      ∧ (drawCols x y row col sprite left s).i = s.i := by
  intro left
  induction left with
  | zero =>
    intro col sprite row s
    exact ⟨rfl, fun j _ => rfl, rfl, rfl, rfl⟩
  | succ n ih =>
    intro col sprite row s
    by_cases hbit : sprite &&& 0x80 > 0
    · have hdc : drawCols x y row col sprite (n + 1) s
          = drawCols x y row (col + 1) (sprite <<< 1) n
              (applyPixel s ((s.v x : Int) + (col : Int)) ((s.v y : Int) + (row : Int))) := by
        simp [drawCols, hbit]
      have hcl : colLocs (s.v x) (s.v y) row col sprite (n + 1)
          = wrapLoc ((s.v x : Int) + (col : Int)) ((s.v y : Int) + (row : Int))
              :: colLocs (s.v x) (s.v y) row (col + 1) (sprite <<< 1) n := by
        simp [colLocs, hbit]
      rw [hdc, hcl, applyPixel_eq]
      by_cases hb : s.display (wrapLoc ((s.v x : Int) + (col : Int)) ((s.v y : Int) + (row : Int))) = 1
      · rw [if_pos (by simp [hb] : (s.display (wrapLoc ((s.v x : Int) + (col : Int)) ((s.v y : Int) + (row : Int))) == 1) = true)]
        obtain ⟨ihd, ihv, ihf, ihm, ihi⟩ := ih (col + 1) (sprite <<< 1) row
          (vset { s with display := toggleAt s.display (wrapLoc ((s.v x : Int) + (col : Int)) ((s.v y : Int) + (row : Int))) } 15 1)
        have hv1x : (vset { s with display := toggleAt s.display (wrapLoc ((s.v x : Int) + (col : Int)) ((s.v y : Int) + (row : Int))) } 15 1).v x = s.v x := by
          simp [vset, hx]
        have hv1y : (vset { s with display := toggleAt s.display (wrapLoc ((s.v x : Int) + (col : Int)) ((s.v y : Int) + (row : Int))) } 15 1).v y = s.v y := by
          simp [vset, hy]
        rw [hv1x, hv1y] at ihd ihf
        refine ⟨?_, ?_, ?_, ?_, ?_⟩
        · rw [ihd]
          simp only [runToggles]
          rfl
        · intro j hj
          rw [ihv j hj]
          simp [vset, hj]
        · rw [ihf]
          simp only [runToggles]
          simp [vset, hb]
        · exact ihm
        · exact ihi
      · rw [if_neg (by simp [hb] : ¬ (s.display (wrapLoc ((s.v x : Int) + (col : Int)) ((s.v y : Int) + (row : Int))) == 1) = true)]
        obtain ⟨ihd, ihv, ihf, ihm, ihi⟩ := ih (col + 1) (sprite <<< 1) row
          { s with display := toggleAt s.display (wrapLoc ((s.v x : Int) + (col : Int)) ((s.v y : Int) + (row : Int))) }
        refine ⟨?_, ?_, ?_, ?_, ?_⟩
        · rw [ihd]
          simp only [runToggles]
          try rfl
        · intro j hj
          exact ihv j hj
        · rw [ihf]
          simp only [runToggles]
          simp [hb]
          try rfl
        · exact ihm
        · exact ihi
    · have hdc : drawCols x y row col sprite (n + 1) s
          = drawCols x y row (col + 1) (sprite <<< 1) n s := by
        simp [drawCols, hbit]
      have hcl : colLocs (s.v x) (s.v y) row col sprite (n + 1)
          = colLocs (s.v x) (s.v y) row (col + 1) (sprite <<< 1) n := by
        simp [colLocs, hbit]
      rw [hdc, hcl]
      exact ih (col + 1) (sprite <<< 1) row s

/-- The whole row scan performs exactly the toggles of `rowLocs`. -/
lemma drawRows_spec (x y : Nat) (hx : x ≠ 15) (hy : y ≠ 15) :
    ∀ (left row : Nat) (s : CPU),
      (drawRows x y row left s).display
          = (runToggles s.display (rowLocs (s.v x) (s.v y) s.memory s.i row left)).1
      ∧ (∀ j, j ≠ 15 → (drawRows x y row left s).v j = s.v j)
      ∧ (drawRows x y row left s).v 15
          = (if (runToggles s.display (rowLocs (s.v x) (s.v y) s.memory s.i row left)).2
              then 1 else s.v 15)
      ∧ (drawRows x y row left s).memory = s.memory
      ∧ (drawRows x y row left s).i = s.i := by
  intro left
  induction left with
  | zero =>
    intro row s
    exact ⟨rfl, fun j _ => rfl, rfl, rfl, rfl⟩
  | succ n ih =>
    intro row s
    simp only [drawRows, memRead, rowLocs]
    obtain ⟨cd, cv, cf, cm, ci⟩ :=
      drawCols_spec x y hx hy 8 0 (memByte s.memory (s.i + row)) row s
    obtain ⟨ihd, ihv, ihf, ihm, ihi⟩ :=
      ih (row + 1) (drawCols x y row 0 (memByte s.memory (s.i + row)) 8 s)
    rw [cv x hx, cv y hy, cm, ci, cd] at ihd ihf
    rw [cf] at ihf
    refine ⟨?_, ?_, ?_, ?_, ?_⟩
    · rw [ihd, runToggles_append]
    · intro j hj
      rw [ihv j hj]
      exact cv j hj
    · rw [ihf]
      simp only [runToggles_append]
      cases hA : (runToggles s.display
          (colLocs (s.v x) (s.v y) row 0 (memByte s.memory (s.i + row)) 8)).2 <;>
        cases hB : (runToggles (runToggles s.display
            (colLocs (s.v x) (s.v y) row 0 (memByte s.memory (s.i + row)) 8)).1
          (rowLocs (s.v x) (s.v y) s.memory s.i (row + 1) n)).2 <;>
        simp [hA, hB]
    · rw [ihm]
      exact cm
    · rw [ihi]
      exact ci

/-- The `Dxyn` instruction body: VF is cleared, then the scan toggles
exactly `rowLocs`, with VF ending 1 iff some toggle erased a pixel; the
other registers, the memory and I are untouched. -/
lemma opDRW_spec (x y n : Nat) (hx : x ≠ 15) (hy : y ≠ 15) (s : CPU) :
    (opDRW x y n s).display
        = (runToggles s.display (rowLocs (s.v x) (s.v y) s.memory s.i 0 n)).1
  ∧ (∀ j, j ≠ 15 → (opDRW x y n s).v j = s.v j)
  ∧ (opDRW x y n s).v 15
      = (if (runToggles s.display (rowLocs (s.v x) (s.v y) s.memory s.i 0 n)).2
          then 1 else 0)
  ∧ (opDRW x y n s).memory = s.memory
  ∧ (opDRW x y n s).i = s.i := by
  obtain ⟨rd, rv, rf, rm, ri⟩ := drawRows_spec x y hx hy n 0 (vset s 15 0)
  have h1 : (vset s 15 0).v x = s.v x := by simp [vset, hx]
  have h2 : (vset s 15 0).v y = s.v y := by simp [vset, hy]
  have h3 : (vset s 15 0).v 15 = 0 := by simp [vset]
  rw [h1, h2] at rd rf
  rw [h3] at rf
  simp only [opDRW]
  refine ⟨rd, ?_, rf, rm, ri⟩
  intro j hj
  rw [rv j hj]
  simp [vset, hj]

/-- Within a window of width 7, the buggy single-step x-wrap is injective
and moves any two values to within 63 of each other. -/
lemma wrapX_window (a b : Int) (ha : 0 ≤ a) (hb : 0 ≤ b)
    (h1 : a - b ≤ 7) (h2 : b - a ≤ 7) :
    (wrapX a = wrapX b → a = b) ∧ wrapX a - wrapX b ≤ 63 ∧ wrapX b - wrapX a ≤ 63 := by
  unfold wrapX
  split_ifs <;> omega

/-- Within a window of width 14, the single-step y-wrap is injective. -/
lemma wrapY_window (a b : Int) (ha : 0 ≤ a) (hb : 0 ≤ b)
    (h1 : a - b ≤ 14) (h2 : b - a ≤ 14) :
    wrapY a = wrapY b → a = b := by
  unfold wrapY
  split_ifs <;> omega

/-- Location injectivity for the windows a sprite scan produces: columns
within 7 of each other and rows within 14 of each other. -/
lemma wrapLoc_inj (a1 b1 a2 b2 : Int) (ha1 : 0 ≤ a1) (ha2 : 0 ≤ a2)
    (hb1 : 0 ≤ b1) (hb2 : 0 ≤ b2)
    (hA1 : a1 - a2 ≤ 7) (hA2 : a2 - a1 ≤ 7)
    (hB1 : b1 - b2 ≤ 14) (hB2 : b2 - b1 ≤ 14)
    (h : wrapLoc a1 b1 = wrapLoc a2 b2) : a1 = a2 ∧ b1 = b2 := by
  obtain ⟨hinj, hs1, hs2⟩ := wrapX_window a1 a2 ha1 ha2 hA1 hA2
  have hyinj := wrapY_window b1 b2 hb1 hb2 hB1 hB2
  unfold wrapLoc at h
  have hy : wrapY b1 = wrapY b2 := by omega
  have hx : wrapX a1 = wrapX a2 := by omega
  exact ⟨hinj hx, hyinj hy⟩

/-- Every location in a column list comes from a column index in the
scanned window. -/
lemma colLocs_shape (vx vy row : Nat) :
    ∀ (left col sprite : Nat) (p : Int), p ∈ colLocs vx vy row col sprite left →
      ∃ c : Nat, col ≤ c ∧ c < col + left
        ∧ p = wrapLoc ((vx : Int) + (c : Int)) ((vy : Int) + (row : Int)) := by
  intro left
  induction left with
  | zero =>
    intro col sprite p hp
    simp [colLocs] at hp
  | succ n ih =>
    intro col sprite p hp
    by_cases hbit : sprite &&& 0x80 > 0
    · have hcl : colLocs vx vy row col sprite (n + 1)
          = wrapLoc ((vx : Int) + (col : Int)) ((vy : Int) + (row : Int))
              :: colLocs vx vy row (col + 1) (sprite <<< 1) n := by
        simp [colLocs, hbit]
      rw [hcl] at hp
      rcases List.mem_cons.mp hp with h | h
      · exact ⟨col, le_refl col, by omega, h⟩
      · obtain ⟨c, h1, h2, h3⟩ := ih (col + 1) (sprite <<< 1) p h
        exact ⟨c, by omega, by omega, h3⟩
    · have hcl : colLocs vx vy row col sprite (n + 1)
          = colLocs vx vy row (col + 1) (sprite <<< 1) n := by
        simp [colLocs, hbit]
      rw [hcl] at hp
      obtain ⟨c, h1, h2, h3⟩ := ih (col + 1) (sprite <<< 1) p hp
      exact ⟨c, by omega, by omega, h3⟩

/-- A column list over a window of at most 8 columns has no duplicate
locations. -/
lemma colLocs_nodup (vx vy row : Nat) :
    ∀ (left col sprite : Nat), col + left ≤ 8 →
      (colLocs vx vy row col sprite left).Nodup := by
  intro left
  induction left with
  | zero =>
    intro col sprite _
    simp [colLocs]
  | succ n ih =>
    intro col sprite h8
    by_cases hbit : sprite &&& 0x80 > 0
    · have hcl : colLocs vx vy row col sprite (n + 1)
          = wrapLoc ((vx : Int) + (col : Int)) ((vy : Int) + (row : Int))
              :: colLocs vx vy row (col + 1) (sprite <<< 1) n := by
        simp [colLocs, hbit]
      rw [hcl]
      refine List.nodup_cons.mpr ⟨?_, ih (col + 1) (sprite <<< 1) (by omega)⟩
      intro hmem
      obtain ⟨c, h1, h2, h3⟩ := colLocs_shape vx vy row n (col + 1) (sprite <<< 1) _ hmem
      obtain ⟨hxe, -⟩ := wrapLoc_inj ((vx : Int) + (col : Int)) ((vy : Int) + (row : Int))
        ((vx : Int) + (c : Int)) ((vy : Int) + (row : Int))
        (by positivity) (by positivity) (by positivity) (by positivity)
        (by omega) (by omega) (by omega) (by omega) h3
      omega
    · have hcl : colLocs vx vy row col sprite (n + 1)
          = colLocs vx vy row (col + 1) (sprite <<< 1) n := by
        simp [colLocs, hbit]
      rw [hcl]
      exact ih (col + 1) (sprite <<< 1) (by omega)

/-- Every location in a row list comes from a row in the scanned window
and a column below 8. -/
lemma rowLocs_shape (vx vy : Nat) (mem : Nat → Nat) (i : Nat) :
    ∀ (left row : Nat) (p : Int), p ∈ rowLocs vx vy mem i row left →
      ∃ r c : Nat, row ≤ r ∧ r < row + left ∧ c < 8
        ∧ p = wrapLoc ((vx : Int) + (c : Int)) ((vy : Int) + (r : Int)) := by
  intro left
  induction left with
  | zero =>
    intro row p hp
    simp [rowLocs] at hp
  | succ n ih =>
    intro row p hp
    simp only [rowLocs] at hp
    rcases List.mem_append.mp hp with h | h
    · obtain ⟨c, h1, h2, h3⟩ := colLocs_shape vx vy row 8 0 (memByte mem (i + row)) p h
      exact ⟨row, c, le_refl row, by omega, by omega, h3⟩
    · obtain ⟨r, c, h1, h2, h3, h4⟩ := ih (row + 1) p h
      exact ⟨r, c, by omega, by omega, h3, h4⟩

/-- The full scan of at most 15 rows toggles pairwise distinct
locations. -/
lemma rowLocs_nodup (vx vy : Nat) (mem : Nat → Nat) (i : Nat) :
    ∀ (left row : Nat), left ≤ 15 → (rowLocs vx vy mem i row left).Nodup := by
  intro left
  induction left with
  | zero =>
    intro row _
    simp [rowLocs]
  | succ n ih =>
    intro row h15
    simp only [rowLocs]
    refine List.Nodup.append (colLocs_nodup vx vy row 8 0 (memByte mem (i + row)) (by omega))
      (ih (row + 1) (by omega)) ?_
    intro p hp hp'
    obtain ⟨c1, g1, g2, g3⟩ := colLocs_shape vx vy row 8 0 (memByte mem (i + row)) p hp
    obtain ⟨r, c2, k1, k2, k3, k4⟩ := rowLocs_shape vx vy mem i n (row + 1) p hp'
    rw [g3] at k4
    obtain ⟨-, hye⟩ := wrapLoc_inj ((vx : Int) + (c1 : Int)) ((vy : Int) + (row : Int))
      ((vx : Int) + (c2 : Int)) ((vy : Int) + (r : Int))
      (by positivity) (by positivity) (by positivity) (by positivity)
      (by omega) (by omega) (by omega) (by omega) k4
    omega

set_option maxHeartbeats 4000000 in
/-- Field extraction for the sprite draw family `Dxyn`. -/
lemma decodeD (x y n : Nat) (hx : x ≤ 15) (hy : y ≤ 15) (hn : n ≤ 15) :
    (0xD000 + 256 * x + 16 * y + n) &&& 0xF000 = 0xD000
  ∧ ((0xD000 + 256 * x + 16 * y + n) &&& 0x0F00) >>> 8 = x
  ∧ ((0xD000 + 256 * x + 16 * y + n) &&& 0x00F0) >>> 4 = y
  ∧ (0xD000 + 256 * x + 16 * y + n) &&& 0xF = n := by
  interval_cases x <;> interval_cases y <;> interval_cases n <;> exact ⟨rfl, rfl, rfl, rfl⟩

/-- C8 (amended): for coordinate registers other than VF (`x ≠ 0xF`,
`y ≠ 0xF`), executing `Dxyn` twice from the same state restores every
pixel of the frame buffer; each draw leaves VF ∈ {0, 1}, cleared before
the scan and ending 1 iff at least one toggle turned a previously-on
pixel off, which (the toggled locations being pairwise distinct) is
equivalent to some pixel going from on to off across that draw; in
particular the second draw reports VF = 1 iff pixels actually turned off.
(When a coordinate register is VF, the unconditional `VF = 0` clear and
mid-scan collision writes shift the sprite position between the two
draws, see the counterexample.) -/
theorem c8_draw_involution_and_collision (x y n : Nat) (hx : x ≤ 15) (hy : y ≤ 15)
    (hn : n ≤ 15) (hxF : x ≠ 15) (hyF : y ≠ 15)
    (keys : Nat → Bool) (u : ℚ) (s s1 s2 : CPU)
    (h1 : executeInstruction keys u (0xD000 + 256 * x + 16 * y + n) s = .ok s1)
    (h2 : executeInstruction keys u (0xD000 + 256 * x + 16 * y + n) s1 = .ok s2) :
    (∀ p, s2.display p = s.display p)
  ∧ (s1.v 15 = 0 ∨ s1.v 15 = 1)
  ∧ (s1.v 15 = 1 ↔ ∃ p, s.display p = 1 ∧ s1.display p = 0)
  ∧ (s2.v 15 = 1 ↔ ∃ p, s1.display p = 1 ∧ s2.display p = 0) := by
  obtain ⟨d1, d2, d3, d4⟩ := decodeD x y n hx hy hn
  have hrun : ∀ t : CPU, executeInstruction keys u (0xD000 + 256 * x + 16 * y + n) t
      = .ok (opDRW x y n { t with pc := pcAdd t.pc 2 }) := by
    intro t
    simp only [executeInstruction, d1, d2, d3, d4]
    norm_num
  have hs1 : s1 = opDRW x y n { s with pc := pcAdd s.pc 2 } := by
    have h := (hrun s).symm.trans h1
    injection h with h
    exact h.symm
  have hs2 : s2 = opDRW x y n { s1 with pc := pcAdd s1.pc 2 } := by
    have h := (hrun s1).symm.trans h2
    injection h with h
    exact h.symm
  obtain ⟨D1, V1, F1, M1, I1⟩ :
      s1.display = (runToggles s.display (rowLocs (s.v x) (s.v y) s.memory s.i 0 n)).1
    ∧ (∀ j, j ≠ 15 → s1.v j = s.v j)
    ∧ s1.v 15 = (if (runToggles s.display (rowLocs (s.v x) (s.v y) s.memory s.i 0 n)).2
        then 1 else 0)
    ∧ s1.memory = s.memory ∧ s1.i = s.i := by
    rw [hs1]
    exact opDRW_spec x y n hxF hyF _
  obtain ⟨D2, V2, F2, M2, I2⟩ :
      s2.display = (runToggles s1.display (rowLocs (s1.v x) (s1.v y) s1.memory s1.i 0 n)).1
    ∧ (∀ j, j ≠ 15 → s2.v j = s1.v j)
    ∧ s2.v 15 = (if (runToggles s1.display (rowLocs (s1.v x) (s1.v y) s1.memory s1.i 0 n)).2
        then 1 else 0)
    ∧ s2.memory = s1.memory ∧ s2.i = s1.i := by
    rw [hs2]
    exact opDRW_spec x y n hxF hyF _
  rw [V1 x hxF, V1 y hyF, M1, I1, D1] at D2 F2
  have hnd : (rowLocs (s.v x) (s.v y) s.memory s.i 0 n).Nodup :=
    rowLocs_nodup (s.v x) (s.v y) s.memory s.i n 0 hn
  refine ⟨?_, ?_, ?_, ?_⟩
  · intro p
    rw [D2]
    exact runToggles_invol _ s.display p
  · rw [F1]
    split_ifs <;> simp
  · rw [F1, D1]
    rw [runToggles_net_off _ s.display hnd,
      ← runToggles_snd _ s.display hnd]
    cases h : (runToggles s.display (rowLocs (s.v x) (s.v y) s.memory s.i 0 n)).2 <;>
      simp [h]
  · rw [F2, D2, D1]
    rw [runToggles_net_off _ (runToggles s.display
        (rowLocs (s.v x) (s.v y) s.memory s.i 0 n)).1 hnd,
      ← runToggles_snd _ (runToggles s.display
        (rowLocs (s.v x) (s.v y) s.memory s.i 0 n)).1 hnd]
    cases h : (runToggles (runToggles s.display
        (rowLocs (s.v x) (s.v y) s.memory s.i 0 n)).1
        (rowLocs (s.v x) (s.v y) s.memory s.i 0 n)).2 <;>
      simp [h]

/-- A machine with a two-row sprite `0x80, 0x80` at I = 0x300 and the
single pixel (0, 0) lit. -/
def drawVFstate : CPU :=
  { initCPU with
    i := 0x300
    memory := fun a => if a = 0x300 then 0x80 else if a = 0x301 then 0x80 else 0
    display := fun q => if q = 0 then 1 else 0 }

/-- C8 counterexample: drawing with the x coordinate taken from VF
(opcode `0xDF02`, x = 0xF, y = 0, n = 2) twice from `drawVFstate` does
not restore the screen: the first draw's collision at (0, 0) flips VF to
1 mid-scan, shifting the second row to column 1, and the second draw
(with VF cleared back to 0) draws the second row at column 0; pixel
index 65 — the pixel (1, 1) — is lit afterwards although it was off
before the two draws. -/
theorem c8_counterexample :
    ((executeInstruction noKeys uZero 0xDF02 drawVFstate).bind
        (fun t => executeInstruction noKeys uZero 0xDF02 t)).toOption.map
      (fun t => t.display 65) = some 1
  ∧ drawVFstate.display 65 = 0 :=
  ⟨by decide, by decide⟩

/-- A machine with a one-row sprite `0x80` at I = 0x300 and the single
pixel (0, 0) lit. -/
def drawWitState : CPU :=
  { initCPU with
    i := 0x300
    memory := fun a => if a = 0x300 then 0x80 else 0
    display := fun q => if q = 0 then 1 else 0 }

/-- C8 witness: the amended theorem at x = 0, y = 1, n = 1 on
`drawWitState`. -/
theorem c8_draw_involution_and_collision_witness :
    ∃ s1 s2, executeInstruction noKeys uZero (0xD000 + 256 * 0 + 16 * 1 + 1) drawWitState = .ok s1
      ∧ executeInstruction noKeys uZero (0xD000 + 256 * 0 + 16 * 1 + 1) s1 = .ok s2
      ∧ ((∀ p, s2.display p = drawWitState.display p)
        ∧ (s1.v 15 = 0 ∨ s1.v 15 = 1)
        ∧ (s1.v 15 = 1 ↔ ∃ p, drawWitState.display p = 1 ∧ s1.display p = 0)
        ∧ (s2.v 15 = 1 ↔ ∃ p, s1.display p = 1 ∧ s2.display p = 0)) := by
  refine ⟨_, _, rfl, rfl,
    c8_draw_involution_and_collision 0 1 1 (by decide) (by decide) (by decide)
      (by decide) (by decide) noKeys uZero drawWitState _ _ rfl rfl⟩

end Chip8
